import Mathlib

/-!
Shallow embedding of the interactive data-analysis dashboard
(`streamlit_app.py`) and proofs about its column classification,
fallback text-to-temporal conversion, correlation views, resampling,
CSV load/export, and per-interaction lifecycle.

Modelling conventions:
* a dataframe is a list of named columns; each column carries its pandas
  dtype as an inductive tag (`float64`/`int64` numeric over `ℚ`, `object`
  text, `datetime64` temporal over integer day numbers, `bool`), and each
  cell is an `Option` (`none` = `NaN`/`NaT`);
* the pandas date-parsing engine is an external collaborator and is
  abstracted as a parameter `p : String → Option Int`; a concrete ISO
  `YYYY-MM-DD` parser is provided for evaluating witnesses;
* Pearson correlation values are irrational in general; an entry is
  encoded exactly by its *signed square* `r * |r| ∈ ℚ` (an injective and
  strictly monotone function of the true correlation `r`), with `none`
  encoding `NaN`; equality with `±1`, symmetry and descending order of
  entries are preserved by this encoding.
-/

namespace Dashboard

/-- Stored representation of one dataframe column, mirroring the pandas
dtypes the app distinguishes: `float64`/`int64` (numeric), `object`
(text), `datetime64` (temporal, as integer day numbers) and `bool`
(the remaining dtype `pd.read_csv` infers). `none` is a missing value. -/
inductive ColData where
  | numeric (vals : List (Option ℚ))
  | text (vals : List (Option String))
  | temporal (vals : List (Option Int))
  | boolean (vals : List (Option Bool))
deriving DecidableEq, Repr

/-- One named dataframe column. -/
structure Column where
  name : String
  data : ColData
deriving DecidableEq, Repr

/-- A dataframe: the ordered sequence of its named columns. -/
abbrev Dataset := List Column

/-- Whether the stored dtype is `float64`/`int64`. -/
def ColData.isNumeric : ColData → Bool
  | .numeric _ => true
  | _ => false

/-- Whether the stored dtype is `object` (text). -/
def ColData.isText : ColData → Bool
  | .text _ => true
  | _ => false

/-- Whether the stored dtype is `datetime64`. -/
def ColData.isTemporal : ColData → Bool
  | .temporal _ => true
  | _ => false

/-- Whether the stored dtype is `bool`. -/
def ColData.isBoolean : ColData → Bool
  | .boolean _ => true
  | _ => false

/-- Line 63: `df.select_dtypes(include=['float64', 'int64']).columns`. -/
def numericCols (df : Dataset) : List String :=
  (df.filter (fun c => c.data.isNumeric)).map Column.name

/-- Lines 64 and 124: `df.select_dtypes(include=['datetime64']).columns`. -/
def datetimeCols (df : Dataset) : List String :=
  (df.filter (fun c => c.data.isTemporal)).map Column.name

/-- Lines 114 and 127: `df.select_dtypes(include=['object']).columns`
(the code's `category_cols`, also the loop domain of the fallback scan). -/
def categoryCols (df : Dataset) : List String :=
  (df.filter (fun c => c.data.isText)).map Column.name

/-- Column lookup `df[col]` (first column of that name). -/
def getCol (df : Dataset) (n : String) : Option ColData :=
  (df.find? (fun c => c.name == n)).map Column.data

/-- Column assignment `df[col] = series`: every column labelled `n` is
overwritten in place. -/
def setCol (df : Dataset) (n : String) (d : ColData) : Dataset :=
  df.map (fun c => if c.name = n then ⟨n, d⟩ else c)

/-- Line 129: `pd.to_datetime(series)` on an `object` column, abstracted
over the date parser `p` (the pandas parsing engine is an external
collaborator; the spec models it as `tryParseTemporal`). A missing value
becomes `NaT` without error; a non-missing value that fails to parse makes
the whole conversion raise, modelled as `none`. -/
def toDatetime (p : String → Option Int) :
    List (Option String) → Option (List (Option Int))
  | [] => some []
  | none :: vs => (toDatetime p vs).map (fun ts => none :: ts)
  | some s :: vs =>
    match p s with
    | none => none
    | some z => (toDatetime p vs).map (fun ts => some z :: ts)

/-- Lines 127–132: the fallback loop body, iterating the snapshot of
`object` column names; a successful `to_datetime` is written back in place
and the name appended to `date_cols`; a failure is swallowed by the bare
`except: continue`. -/
def convertLoop (p : String → Option Int) :
    List String → Dataset → Dataset × List String
  | [], df => (df, [])
  | n :: ns, df =>
    match getCol df n with
    | some (.text vals) =>
      match toDatetime p vals with
      | some ts =>
        let r := convertLoop p ns (setCol df n (.temporal ts))
        (r.1, n :: r.2)
      | none => convertLoop p ns df
    | _ => convertLoop p ns df

/-- Lines 122–132: the Time Series branch first recomputes the
`datetime64` columns; only when there are none does it run the fallback
conversion over the `object` columns in stored order. Returns the updated
dataframe together with the final `date_cols`. -/
def timeSeriesScan (p : String → Option Int) (df : Dataset) :
    Dataset × List String :=
  if (datetimeCols df).isEmpty then convertLoop p (categoryCols df) df
  else (df, datetimeCols df)

/-- The five entries of the visualization-type selector (line 57). -/
inductive Viz where
  | distribution
  | correlation
  | scatter
  | box
  | timeSeries
deriving DecidableEq, Repr

/-- The dataframe as it stands at the end of one script run for the chosen
visualization: only the Time Series branch (lines 122–132) ever assigns to
`df`; every other branch reads it without modification. -/
def appDataset (p : String → Option Int) (v : Viz) (df : Dataset) : Dataset :=
  match v with
  | .timeSeries => (timeSeriesScan p df).1
  | _ => df

/-- Result of converting one column, for stating the scan's effect:
a fully parsing `object` column becomes `datetime64`, anything else is
left untouched. -/
def convertCol (p : String → Option Int) (c : Column) : Column :=
  match c.data with
  | .text vals =>
    match toDatetime p vals with
    | some ts => ⟨c.name, .temporal ts⟩
    | none => c
  | _ => c

/-- Whether the fallback conversion succeeds for the column named `n`
of `df`. -/
def convertsAt (p : String → Option Int) (df : Dataset) (n : String) : Bool :=
  match getCol df n with
  | some (.text vals) => (toDatetime p vals).isSome
  | _ => false

/-! ### Correlation Analysis branch (lines 77–96) -/

/-- Rows where both series are non-missing: the pairwise deletion that
pandas `DataFrame.corr` performs per column pair (`nancorr` keeps row `i`
exactly when `mask[i, xi] and mask[i, yi]`). -/
def pairRows : List (Option ℚ) → List (Option ℚ) → List (ℚ × ℚ)
  | some a :: xs, some b :: ys => (a, b) :: pairRows xs ys
  | _ :: xs, _ :: ys => pairRows xs ys
  | _, _ => []

/-- Arithmetic mean of a list of rationals (`0` on the empty list, which
every use guards against). -/
def listMean (l : List ℚ) : ℚ := l.sum / l.length

/-- Pearson correlation of two series as computed by `df.corr()` (pandas
`nancorr` with `min_periods = 1`): pairwise deletion, then
`covxy / sqrt(ssqdmx * ssqdmy)`, `NaN` when no row survives deletion or
the divisor is zero. The real result `r` is encoded exactly as its signed
square `r * |r| = covxy * |covxy| / (ssqdmx * ssqdmy)` — an injective,
strictly monotone encoding, so equality with `1`, symmetry and relative
order of entries are faithfully represented; `none` encodes `NaN`. -/
def pearson (xs ys : List (Option ℚ)) : Option ℚ :=
  let rows := pairRows xs ys
  if rows.isEmpty then none
  else
    let mx := listMean (rows.map Prod.fst)
    let my := listMean (rows.map Prod.snd)
    let cov := (rows.map (fun r => (r.1 - mx) * (r.2 - my))).sum
    let ssx := (rows.map (fun r => (r.1 - mx) * (r.1 - mx))).sum
    let ssy := (rows.map (fun r => (r.2 - my) * (r.2 - my))).sum
    if ssx * ssy = 0 then none
    else some (cov * |cov| / (ssx * ssy))

/-- Values of the numeric columns in stored order (`df[numeric_cols]`). -/
def numColVals (df : Dataset) : List (List (Option ℚ)) :=
  df.filterMap (fun c =>
    match c.data with
    | .numeric vals => some vals
    | _ => none)

/-- Line 79: `corr_matrix = df[numeric_cols].corr()` as the square grid of
(signed-square encoded) pairwise Pearson correlations. -/
def corrMatrix (df : Dataset) : List (List (Option ℚ)) :=
  (numColVals df).map (fun xs => (numColVals df).map (fun ys => pearson xs ys))

/-- One row of the `corr_pairs` table (lines 90–94). -/
structure CorrRecord where
  var1 : String
  var2 : String
  corr : Option ℚ
deriving DecidableEq, Repr

/-- Lines 87–94: the nested loop `for i in range(n): for j in
range(i+1, n)` enumerating the strictly-upper-triangle pairs of the
matrix, one record per unordered pair. -/
def corrPairs (names : List String) (m : List (List (Option ℚ))) :
    List CorrRecord :=
  (List.range names.length).flatMap (fun i =>
    (List.range' (i + 1) (names.length - (i + 1))).map (fun j =>
      ⟨names.getD i "", names.getD j "", (m.getD i []).getD j none⟩))

/-- Line 96: `corr_df.nlargest(5, 'Correlation')` — `NaN` rows are
dropped, the remainder is sorted descending by the correlation value with
`keep='first'` (stable: earlier rows win ties), and the first `n` rows are
kept. -/
def nlargest (n : Nat) (l : List CorrRecord) : List CorrRecord :=
  ((l.filter (fun r => r.corr.isSome)).mergeSort
    (fun a b => decide (b.corr.getD 0 ≤ a.corr.getD 0))).take n

/-- The Top-5 table of the Correlation Analysis branch. -/
def topCorrelations (names : List String) (m : List (List (Option ℚ))) :
    List CorrRecord :=
  nlargest 5 (corrPairs names m)

/-- Items a branch can render. -/
inductive RenderItem where
  | chart (title : String)
  | table (rows : List CorrRecord)
  | warning (msg : String)
deriving DecidableEq, Repr

/-- Lines 77–96: the whole Correlation Analysis branch. With at least two
numeric columns it renders the heatmap and the Top-5 table; otherwise the
`if len(numeric_cols) > 1` has no `else`, so the branch renders nothing
at all. -/
def correlationBranch (df : Dataset) : List RenderItem :=
  if 1 < (numericCols df).length then
    [.chart "Correlation Heatmap",
     .table (topCorrelations (numericCols df) (corrMatrix df))]
  else []

/-! ### Calendar arithmetic (proleptic Gregorian)

Needed for the `M`/`Y` bucket labels of `resample` and for the concrete
ISO date parser that instantiates the abstract parsing collaborator. -/

/-- Day number (days since 1970-01-01) of a civil date. -/
def daysFromCivil (y m d : Int) : Int :=
  let y2 := if m ≤ 2 then y - 1 else y
  let era := Int.fdiv y2 400
  let yoe := y2 - era * 400
  let mp := if 2 < m then m - 3 else m + 9
  let doy := Int.fdiv (153 * mp + 2) 5 + d - 1
  let doe := yoe * 365 + Int.fdiv yoe 4 - Int.fdiv yoe 100 + doy
  era * 146097 + doe - 719468

/-- Civil date `(year, month, day)` of a day number. -/
def civilFromDays (z0 : Int) : Int × Int × Int :=
  let z := z0 + 719468
  let era := Int.fdiv z 146097
  let doe := z - era * 146097
  let yoe :=
    Int.fdiv (doe - Int.fdiv doe 1460 + Int.fdiv doe 36524 - Int.fdiv doe 146096) 365
  let y := yoe + era * 400
  let doy := doe - (365 * yoe + Int.fdiv yoe 4 - Int.fdiv yoe 100)
  let mp := Int.fdiv (5 * doy + 2) 153
  let d := doy - Int.fdiv (153 * mp + 2) 5 + 1
  let m := if mp < 10 then mp + 3 else mp - 9
  (if m ≤ 2 then y + 1 else y, m, d)

/-! ### Time Series branch: resampling (lines 134–146) -/

/-- The four entries of the frequency selector (line 139), mapped by
`freq_map` to the pandas aliases `D`, `W`, `M`, `Y`. -/
inductive Freq where
  | day
  | week
  | month
  | year
deriving DecidableEq, Repr

/-- Bucket label of a timestamp: the label of the resample bin containing
it (`D`: the day itself; `W` = `W-SUN`: the Sunday on or after it, day
number 3 being a Sunday; `M`: the last day of its month; `Y`: December 31
of its year). -/
def Freq.label : Freq → Int → Int
  | .day, z => z
  | .week, z => z + Int.emod (3 - z) 7
  | .month, z =>
    let c := civilFromDays z
    (if c.2.1 = 12 then daysFromCivil (c.1 + 1) 1 1
     else daysFromCivil c.1 (c.2.1 + 1) 1) - 1
  | .year, z => daysFromCivil (civilFromDays z).1 12 31

/-- All bucket labels (fixed points of `Freq.label`) from `label lo` to
`label hi`: the regular index `date_range(first, last, freq)` underlying
the resampled series. -/
def bucketRange (f : Freq) (lo hi : Int) : List Int :=
  ((List.range (f.label hi - f.label lo + 1).toNat).map
    (fun k => f.label lo + Int.ofNat k)).filter (fun b => f.label b == b)

/-- Non-missing values of the rows whose timestamp falls in the bucket
labelled `b`. -/
def bucketVals (f : Freq) (rows : List (Int × Option ℚ)) (b : Int) : List ℚ :=
  rows.filterMap (fun r => if f.label r.1 = b then r.2 else none)

/-- Mean with pandas `skipna` semantics: `NaN` when the bucket holds no
non-missing value. -/
def meanOpt (l : List ℚ) : Option ℚ :=
  if l.isEmpty then none else some (listMean l)

/-- Lines 142–143: `df.set_index(date_col)[value_col].resample(freq).mean()`.
The output carries one entry per bucket label spanning the data — empty
buckets included with value `NaN` — each non-empty bucket holding the mean
of its non-missing values. -/
def resample (f : Freq) (rows : List (Int × Option ℚ)) :
    List (Int × Option ℚ) :=
  match rows.map Prod.fst with
  | [] => []
  | t :: ts =>
    (bucketRange f (ts.foldl min t) (ts.foldl max t)).map
      (fun b => (b, meanOpt (bucketVals f rows b)))

/-- Earliest timestamp of the series (`0` on the empty list, unused). -/
def tsMin (rows : List (Int × Option ℚ)) : Int :=
  match rows.map Prod.fst with
  | [] => 0
  | t :: ts => ts.foldl min t

/-- Latest timestamp of the series (`0` on the empty list, unused). -/
def tsMax (rows : List (Int × Option ℚ)) : Int :=
  match rows.map Prod.fst with
  | [] => 0
  | t :: ts => ts.foldl max t

/-- Pairing of the chosen `datetime64` index with the chosen numeric
column after `set_index`; rows with a missing timestamp enter no bin. -/
def seriesOf (dvals : List (Option Int)) (nvals : List (Option ℚ)) :
    List (Int × Option ℚ) :=
  (dvals.zip nvals).filterMap (fun r =>
    match r with
    | (some t, v) => some (t, v)
    | _ => none)

/-! ### Concrete date parser for witnesses -/

/-- Decimal digit value of a character, if it is one. -/
def digitVal (c : Char) : Option Nat :=
  if c.isDigit then some (c.toNat - 48) else none

/-- Parse a non-empty all-digit character list as a natural number. -/
def decDigits : List Char → Option Nat
  | [] => none
  | l => l.foldlM (fun acc c => (digitVal c).map (fun d => acc * 10 + d)) 0

/-- Split a character list at every occurrence of `sep` (separators are
consumed); the result has one more piece than there are separators. -/
def splitOnChar (sep : Char) : List Char → List (List Char)
  | [] => [[]]
  | c :: cs =>
    let r := splitOnChar sep cs
    if c = sep then [] :: r
    else
      match r with
      | [] => [[c]]
      | piece :: ps => (c :: piece) :: ps

/-- Concrete strict `YYYY-MM-DD` parser instantiating the abstract
date-parsing collaborator (the spec's `tryParseTemporal`) in witnesses. -/
def isoParse (s : String) : Option Int :=
  match splitOnChar '-' s.data with
  | [ys, ms, ds] =>
    if ys.length = 4 ∧ ms.length = 2 ∧ ds.length = 2 then
      match decDigits ys, decDigits ms, decDigits ds with
      | some y, some m, some d =>
        if 1 ≤ m ∧ m ≤ 12 ∧ 1 ≤ d ∧ d ≤ 31 then
          some (daysFromCivil y m d)
        else none
      | _, _, _ => none
    else none
  | _ => none

/-! ### CSV load (line 36) and export (line 152)

`pd.read_csv` and `df.to_csv` are library collaborators; the embedding
models the fragment the app exercises: `\n` line endings, `,` separators,
blank lines skipped (`skip_blank_lines`), first line as the header, empty
fields as missing values, dtype inference restricted to integer literals,
and `QUOTE_MINIMAL` escaping on export. The load side does not model the
rest of `read_csv`'s input normalisation — its NA-marker list, bool and
float dtype inference (`float64` formatting is outside the embedding),
quoted-field syntax — so the round-trip statement (`claim_C6_amended`)
carries premises (`naMarkers`, `boolMarkers`, `numericLike`, `colOk`,
quote- and carriage-return-free input, well-behaved header) that exclude
every input on which those unmodelled behaviours would fire; on the
remaining inputs the model and the library agree cell for cell. A column
whose fields are all non-missing integer literals loads as `int64`;
anything else stays `object`. -/

/-- Integer literal: optional leading minus sign, then decimal digits. -/
def parseIntLit (l : List Char) : Option Int :=
  match l with
  | '-' :: rest => (decDigits rest).map (fun n => -(n : Int))
  | _ => (decDigits l).map (fun n => (n : Int))

/-- Column dtype inference on one column of raw fields: all fields
non-missing integer literals gives `int64`; otherwise `object` with empty
fields as missing. This is only the integer-or-text part of `read_csv`'s
inference — `float64`, `bool` and NA-marker inference are not modelled
(their re-rendered formattings, notably `float64`, are outside the
embedding), so the round-trip statement restricts itself via `colOk` to
columns on which this function and `read_csv` agree. -/
def inferCol (fields : List (List Char)) : ColData :=
  if fields ≠ [] ∧ ∀ f ∈ fields, (parseIntLit f).isSome then
    .numeric (fields.map (fun f => (parseIntLit f).map (fun z => (z : ℚ))))
  else
    .text (fields.map (fun f => if f.isEmpty then none else some ⟨f⟩))

/-- Non-blank lines of the upload (`skip_blank_lines`). -/
def csvLines (s : String) : List (List Char) :=
  (splitOnChar '\n' s.data).filter (fun l => !l.isEmpty)

/-- Raw fields of column `j`: the `j`-th field of every data line. -/
def csvCol (s : String) (j : Nat) : List (List Char) :=
  match csvLines s with
  | [] => []
  | _ :: rs => rs.map (fun r => (splitOnChar ',' r).getD j [])

/-- Line 36: `pd.read_csv` on the modelled fragment — split into lines,
skip blank lines, take the first line as the header, require every data
line to have exactly as many fields as the header (ragged input is a parse
error), then infer each column's dtype. Only the empty field is a missing
marker and quoted-field syntax is not interpreted; the full NA-marker
list, bool/float inference and quote handling of `read_csv` are outside
the modelled fragment, and the round-trip statement excludes inputs that
would trigger them (`naMarkers`, `colOk`, the quote-free premise). -/
def parseCSV (s : String) : Option Dataset :=
  match csvLines s with
  | [] => none
  | h :: rs =>
    let names := splitOnChar ',' h
    if ∀ r ∈ rs, (splitOnChar ',' r).length = names.length then
      some ((List.range names.length).map (fun j =>
        ⟨⟨names.getD j []⟩, inferCol (csvCol s j)⟩))
    else none

/-- One user interaction: streamlit reruns the whole script, so the
dataframe is re-created from the uploaded bytes (line 36) before the
chosen branch runs; nothing of the previous run's dataframe survives. -/
def interactionDataset (p : String → Option Int) (csv : String) (v : Viz) :
    Option Dataset :=
  (parseCSV csv).map (appDataset p v)

/-! ## Helper lemmas: column lookup and the fallback scan -/

theorem setCol_map_name (df : Dataset) (n : String) (d : ColData) :
    (setCol df n d).map Column.name = df.map Column.name := by
  unfold setCol
  rw [List.map_map]
  apply List.map_congr_left
  intro c _
  by_cases h : c.name = n <;> simp [h]

theorem getCol_setCol_ne (df : Dataset) {m n : String} (h : m ≠ n) (d : ColData) :
    getCol (setCol df n d) m = getCol df m := by
  induction df with
  | nil => rfl
  | cons c cs ih =>
    simp only [setCol, getCol, List.map_cons] at *
    by_cases hc : c.name = n
    · rw [if_pos hc]
      rw [List.find?_cons_of_neg _ (by simp [Ne.symm h]),
        List.find?_cons_of_neg _ (by simp [hc, Ne.symm h])]
      exact ih
    · rw [if_neg hc]
      by_cases hm : c.name = m
      · rw [List.find?_cons_of_pos _ (by simp [hm]), List.find?_cons_of_pos _ (by simp [hm])]
      · rw [List.find?_cons_of_neg _ (by simp [hm]), List.find?_cons_of_neg _ (by simp [hm])]
        exact ih

theorem mem_name_of_mem {df : Dataset} {c : Column} (hc : c ∈ df) :
    c.name ∈ df.map Column.name :=
  List.mem_map_of_mem Column.name hc

theorem getCol_mem_nodup {df : Dataset} {c : Column}
    (hnd : (df.map Column.name).Nodup) (hc : c ∈ df) :
    getCol df c.name = some c.data := by
  induction df with
  | nil => cases hc
  | cons a as ih =>
    simp only [List.map_cons, List.nodup_cons] at hnd
    rcases List.mem_cons.mp hc with rfl | hmem
    · simp [getCol, List.find?_cons_of_pos]
    · have hne : a.name ≠ c.name := by
        intro he
        exact hnd.1 (he ▸ mem_name_of_mem hmem)
      simp only [getCol]
      rw [List.find?_cons_of_neg]
      · exact ih hnd.2 hmem
      · simp [hne]

theorem name_inj_of_nodup {df : Dataset} {c c' : Column}
    (hnd : (df.map Column.name).Nodup) (hc : c ∈ df) (hc' : c' ∈ df)
    (h : c.name = c'.name) : c = c' :=
  List.inj_on_of_nodup_map hnd hc hc' h

theorem mem_categoryCols {df : Dataset} {n : String} :
    n ∈ categoryCols df ↔ ∃ c ∈ df, c.name = n ∧ c.data.isText = true := by
  simp only [categoryCols, List.mem_map, List.mem_filter]
  constructor
  · rintro ⟨c, ⟨hm, ht⟩, rfl⟩
    exact ⟨c, hm, rfl, ht⟩
  · rintro ⟨c, hm, rfl, ht⟩
    exact ⟨c, ⟨hm, ht⟩, rfl⟩

theorem mem_datetimeCols {df : Dataset} {n : String} :
    n ∈ datetimeCols df ↔ ∃ c ∈ df, c.name = n ∧ c.data.isTemporal = true := by
  simp only [datetimeCols, List.mem_map, List.mem_filter]
  constructor
  · rintro ⟨c, ⟨hm, ht⟩, rfl⟩
    exact ⟨c, hm, rfl, ht⟩
  · rintro ⟨c, hm, rfl, ht⟩
    exact ⟨c, ⟨hm, ht⟩, rfl⟩

theorem mem_numericCols {df : Dataset} {n : String} :
    n ∈ numericCols df ↔ ∃ c ∈ df, c.name = n ∧ c.data.isNumeric = true := by
  simp only [numericCols, List.mem_map, List.mem_filter]
  constructor
  · rintro ⟨c, ⟨hm, ht⟩, rfl⟩
    exact ⟨c, hm, rfl, ht⟩
  · rintro ⟨c, hm, rfl, ht⟩
    exact ⟨c, ⟨hm, ht⟩, rfl⟩

theorem categoryCols_nodup {df : Dataset} (hnd : (df.map Column.name).Nodup) :
    (categoryCols df).Nodup :=
  hnd.sublist (List.Sublist.map Column.name (List.filter_sublist df))

theorem toDatetime_isSome_iff (p : String → Option Int) (vals : List (Option String)) :
    (toDatetime p vals).isSome = true ↔
      ∀ s : String, some s ∈ vals → (p s).isSome = true := by
  induction vals with
  | nil => simp [toDatetime]
  | cons v vs ih =>
    cases v with
    | none => simpa [toDatetime] using ih
    | some s =>
      cases hp : p s with
      | none =>
        simp only [toDatetime, hp]
        constructor
        · intro h
          cases h
        · intro h
          have := h s (by simp)
          rw [hp] at this
          cases this
      | some z => simpa [toDatetime, hp] using ih

theorem convertLoop_eq (p : String → Option Int) (ns : List String) (df : Dataset)
    (hnd : (df.map Column.name).Nodup) (hns : ns.Nodup)
    (hmem : ∀ n ∈ ns, ∃ vals, getCol df n = some (.text vals)) :
    convertLoop p ns df =
      (df.map (fun c => if c.name ∈ ns then convertCol p c else c),
       ns.filter (convertsAt p df)) := by
  induction ns generalizing df with
  | nil => simp [convertLoop]
  | cons n ns ih =>
    obtain ⟨vals, hv⟩ := hmem n (List.mem_cons_self n ns)
    have hn_not_mem : n ∉ ns := (List.nodup_cons.mp hns).1
    have hns_tail : ns.Nodup := (List.nodup_cons.mp hns).2
    have hdata : ∀ c ∈ df, c.name = n → c.data = .text vals := by
      intro c hc hcn
      have h1 := getCol_mem_nodup hnd hc
      rw [hcn, hv] at h1
      exact (Option.some.inj h1).symm
    simp only [convertLoop, hv]
    cases hcv : toDatetime p vals with
    | none =>
      rw [ih df hnd hns_tail (fun m hm => hmem m (List.mem_cons_of_mem n hm))]
      refine Prod.ext ?_ ?_
      · apply List.map_congr_left
        intro c hc
        by_cases hcn : c.name = n
        · have hcd := hdata c hc hcn
          rw [if_neg (by rw [hcn]; exact hn_not_mem),
            if_pos (by rw [hcn]; exact List.mem_cons_self n ns)]
          simp only [convertCol, hcd, hcv]
        · by_cases hmns : c.name ∈ ns
          · rw [if_pos hmns, if_pos (List.mem_cons_of_mem n hmns)]
          · rw [if_neg hmns, if_neg (by simp [hcn, hmns])]
      · have hfn : convertsAt p df n = false := by
          simp [convertsAt, hv, hcv]
        rw [List.filter_cons, hfn]
        simp
    | some ts =>
      dsimp only
      have hnd2 : ((setCol df n (.temporal ts)).map Column.name).Nodup := by
        rw [setCol_map_name]
        exact hnd
      have hmem2 : ∀ m ∈ ns,
          ∃ vals2, getCol (setCol df n (.temporal ts)) m = some (.text vals2) := by
        intro m hm
        have hne : m ≠ n := fun he => hn_not_mem (he ▸ hm)
        rw [getCol_setCol_ne df hne]
        exact hmem m (List.mem_cons_of_mem n hm)
      rw [ih _ hnd2 hns_tail hmem2]
      refine Prod.ext ?_ ?_
      · simp only [setCol, List.map_map]
        apply List.map_congr_left
        intro c hc
        simp only [Function.comp]
        by_cases hcn : c.name = n
        · have hcd := hdata c hc hcn
          rw [if_pos hcn, if_neg hn_not_mem,
            if_pos (by rw [hcn]; exact List.mem_cons_self n ns)]
          simp only [convertCol, hcd, hcv]
          rw [hcn]
        · rw [if_neg hcn]
          by_cases hmns : c.name ∈ ns
          · rw [if_pos hmns, if_pos (List.mem_cons_of_mem n hmns)]
          · rw [if_neg hmns, if_neg (by simp [hcn, hmns])]
      · have hcn : convertsAt p df n = true := by
          simp [convertsAt, hv, hcv]
        rw [List.filter_cons, hcn]
        simp only [if_true]
        congr 1
        apply List.filter_congr
        intro m hm
        have hne : m ≠ n := fun he => hn_not_mem (he ▸ hm)
        simp [convertsAt, getCol_setCol_ne df hne]

theorem find?_mem_nodup {df : Dataset} {c : Column}
    (hnd : (df.map Column.name).Nodup) (hc : c ∈ df) :
    df.find? (fun x => x.name == c.name) = some c := by
  induction df with
  | nil => cases hc
  | cons a as ih =>
    simp only [List.map_cons, List.nodup_cons] at hnd
    rcases List.mem_cons.mp hc with rfl | hmem
    · simp [List.find?_cons_of_pos]
    · have hne : a.name ≠ c.name := by
        intro he
        exact hnd.1 (he ▸ mem_name_of_mem hmem)
      rw [List.find?_cons_of_neg]
      · exact ih hnd.2 hmem
      · simp [hne]

theorem mem_categoryCols_iff_isText {df : Dataset} {c : Column}
    (hnd : (df.map Column.name).Nodup) (hc : c ∈ df) :
    c.name ∈ categoryCols df ↔ c.data.isText = true := by
  rw [mem_categoryCols]
  constructor
  · rintro ⟨c', hc', hname, ht⟩
    rw [name_inj_of_nodup hnd hc hc' hname.symm]
    exact ht
  · intro ht
    exact ⟨c, hc, rfl, ht⟩

theorem convertCol_name (p : String → Option Int) (c : Column) :
    (convertCol p c).name = c.name := by
  rcases c with ⟨nm, cd⟩
  cases cd with
  | text vals =>
    simp only [convertCol]
    cases toDatetime p vals <;> rfl
  | numeric v => rfl
  | temporal v => rfl
  | boolean v => rfl

theorem timeSeriesScan_eq (p : String → Option Int) (df : Dataset)
    (hnd : (df.map Column.name).Nodup) (h0 : datetimeCols df = []) :
    timeSeriesScan p df =
      (df.map (fun c => if c.data.isText then convertCol p c else c),
       (categoryCols df).filter (convertsAt p df)) := by
  rw [timeSeriesScan, if_pos (by simp [List.isEmpty_iff, h0])]
  rw [convertLoop_eq p _ df hnd (categoryCols_nodup hnd) ?hm]
  case hm =>
    intro n hn
    obtain ⟨c, hc, rfl, ht⟩ := mem_categoryCols.mp hn
    rcases c with ⟨nm, cd⟩
    cases cd with
    | text vals => exact ⟨vals, by rw [getCol_mem_nodup hnd hc]⟩
    | numeric v => simp [ColData.isText] at ht
    | temporal v => simp [ColData.isText] at ht
    | boolean v => simp [ColData.isText] at ht
  congr 1
  apply List.map_congr_left
  intro c hc
  by_cases ht : c.data.isText = true
  · rw [if_pos ((mem_categoryCols_iff_isText hnd hc).mpr ht), if_pos ht]
  · rw [if_neg (fun hm => ht ((mem_categoryCols_iff_isText hnd hc).mp hm)), if_neg ht]

/-! ## Claim C1: the fallback text-to-temporal scan -/

/-- **C1.** When a time-series view is requested and no column of the
Dataset is already temporal, the program scans the text (`object`) columns
in their stored order and, for each one whose every (non-missing) value
parses as a date/time — missing values pass through as `NaT` — converts
that column in place from text to temporal and appends it to the temporal
set; columns already temporal suppress the scan entirely, and no
conversion is attempted in any other view path. -/
theorem claim_C1 (p : String → Option Int) (df : Dataset)
    (hnd : (df.map Column.name).Nodup) :
    (datetimeCols df ≠ [] → timeSeriesScan p df = (df, datetimeCols df)) ∧
    (datetimeCols df = [] →
      timeSeriesScan p df =
        (df.map (fun c => if c.data.isText then convertCol p c else c),
         (categoryCols df).filter (convertsAt p df))) ∧
    (∀ vals, (toDatetime p vals).isSome = true ↔
      ∀ s : String, some s ∈ vals → (p s).isSome = true) ∧
    (∀ v : Viz, v ≠ Viz.timeSeries → appDataset p v df = df) := by
  refine ⟨?_, timeSeriesScan_eq p df hnd, toDatetime_isSome_iff p, ?_⟩
  · intro h
    rw [timeSeriesScan, if_neg (by simp [List.isEmpty_iff, h])]
  · intro v hv
    cases v with
    | timeSeries => exact absurd rfl hv
    | distribution => rfl
    | correlation => rfl
    | scatter => rfl
    | box => rfl

theorem claim_C1_witness :
    timeSeriesScan isoParse
        [⟨"d", .text [some "2024-01-01", none]⟩, ⟨"x", .numeric [some 1, some 2]⟩] =
      ([⟨"d", .temporal [some 19723, none]⟩, ⟨"x", .numeric [some 1, some 2]⟩],
        ["d"]) := by
  rw [(claim_C1 isoParse
    [⟨"d", .text [some "2024-01-01", none]⟩, ⟨"x", .numeric [some 1, some 2]⟩]
    (by decide)).2.1 (by decide)]
  decide

/-! ## Claim C7: silent failure of the fallback conversion -/

/-- **C7.** For every text column containing at least one non-missing
value that does not parse as a date/time, the fallback conversion fails
silently for that column: no error propagates (the scan is a total
function of which this is an ordinary result), the column's stored
representation is left unchanged, and it remains classified as
categorical (and is not appended to the returned temporal set). -/
theorem claim_C7 (p : String → Option Int) (df : Dataset)
    (hnd : (df.map Column.name).Nodup) (c : Column) (hc : c ∈ df)
    (vals : List (Option String)) (hcd : c.data = .text vals)
    (hbad : ∃ s : String, some s ∈ vals ∧ p s = none) :
    getCol (timeSeriesScan p df).1 c.name = some (.text vals) ∧
    c.name ∈ categoryCols (timeSeriesScan p df).1 ∧
    c.name ∉ (timeSeriesScan p df).2 := by
  have hfail : toDatetime p vals = none := by
    rcases hbad with ⟨s, hs, hps⟩
    cases hcv : toDatetime p vals with
    | none => rfl
    | some ts =>
      have h2 := (toDatetime_isSome_iff p vals).mp (by rw [hcv]; rfl) s hs
      rw [hps] at h2
      cases h2
  have hget : getCol df c.name = some (.text vals) := by
    rw [getCol_mem_nodup hnd hc, hcd]
  have hconvAt : convertsAt p df c.name = false := by
    simp [convertsAt, hget, hfail]
  have hFc : (if c.data.isText then convertCol p c else c) = c := by
    rw [if_pos (by rw [hcd]; rfl)]
    simp only [convertCol, hcd, hfail]
  by_cases h0 : datetimeCols df = []
  · rw [timeSeriesScan_eq p df hnd h0]
    dsimp only
    refine ⟨?_, ?_, ?_⟩
    · simp only [getCol, List.find?_map]
      have hcomp : ((fun x : Column => x.name == c.name) ∘
          (fun c' => if c'.data.isText then convertCol p c' else c')) =
          (fun x : Column => x.name == c.name) := by
        funext x
        by_cases hx : x.data.isText = true
        · simp [Function.comp, hx, convertCol_name]
        · simp [Function.comp, hx]
      rw [hcomp, find?_mem_nodup hnd hc]
      simp only [Option.map_some']
      rw [hFc, hcd]
    · rw [mem_categoryCols]
      have hmemF := List.mem_map_of_mem
        (fun c' => if c'.data.isText then convertCol p c' else c') hc
      refine ⟨c, ?_, rfl, by rw [hcd]; rfl⟩
      simpa only [hFc] using hmemF
    · intro hmm
      have hof := List.of_mem_filter hmm
      rw [hconvAt] at hof
      cases hof
  · rw [timeSeriesScan, if_neg (by simp [List.isEmpty_iff, h0])]
    refine ⟨hget, (mem_categoryCols_iff_isText hnd hc).mpr (by rw [hcd]; rfl), ?_⟩
    intro hmm
    obtain ⟨c', hc', hname, ht⟩ := mem_datetimeCols.mp hmm
    have hcc : c = c' := name_inj_of_nodup hnd hc hc' hname.symm
    rw [← hcc, hcd] at ht
    simp [ColData.isTemporal] at ht

theorem claim_C7_witness :
    getCol (timeSeriesScan isoParse
        [⟨"t", .text [some "not-a-date", some "2024-01-01"]⟩]).1 "t" =
      some (.text [some "not-a-date", some "2024-01-01"]) ∧
    "t" ∈ categoryCols (timeSeriesScan isoParse
        [⟨"t", .text [some "not-a-date", some "2024-01-01"]⟩]).1 ∧
    "t" ∉ (timeSeriesScan isoParse
        [⟨"t", .text [some "not-a-date", some "2024-01-01"]⟩]).2 :=
  claim_C7 isoParse [⟨"t", .text [some "not-a-date", some "2024-01-01"]⟩]
    (by decide) ⟨"t", .text [some "not-a-date", some "2024-01-01"]⟩
    (by decide) [some "not-a-date", some "2024-01-01"] rfl
    ⟨"not-a-date", by decide, by decide⟩

/-! ## Claim C9: lifecycle of the conversion across interactions -/

/-- **C9 counterexample.** The upgrade does not survive the interaction:
with the same upload, the time-series interaction presents column `d` as
temporal, but the very next interaction (Box Plots) re-parses the upload
and presents `d` as a text column again — it is even offered among the
categorical columns. The claim's "once a column has been converted it
never reverts for the lifetime of the session's Dataset" is false. -/
theorem claim_C9_counter :
    interactionDataset isoParse "d,x\n2024-01-01,1\n2024-01-05,2\n" Viz.timeSeries =
      some [⟨"d", .temporal [some 19723, some 19727]⟩,
        ⟨"x", .numeric [some 1, some 2]⟩] ∧
    interactionDataset isoParse "d,x\n2024-01-01,1\n2024-01-05,2\n" Viz.box =
      some [⟨"d", .text [some "2024-01-01", some "2024-01-05"]⟩,
        ⟨"x", .numeric [some 1, some 2]⟩] ∧
    "d" ∈ categoryCols [⟨"d", .text [some "2024-01-01", some "2024-01-05"]⟩,
      ⟨"x", .numeric [some 1, some 2]⟩] := by
  refine ⟨?_, ?_, ?_⟩ <;> decide

/-- **C9 (amended).** The Dataset does not persist across interactions:
every script run re-parses the upload, so the text-to-temporal upgrade
exists only within the single run that performed it and the parse re-runs
on each later time-series request. Within a run the upgrade is monotonic
(a temporal column is never touched), and the scan is idempotent:
re-running the time-series branch on its own output changes nothing, and
the second run takes the already-temporal columns directly from the
dtype check. -/
theorem claim_C9_amended (p : String → Option Int) (df : Dataset)
    (hnd : (df.map Column.name).Nodup) :
    (timeSeriesScan p (timeSeriesScan p df).1).1 = (timeSeriesScan p df).1 ∧
    (timeSeriesScan p (timeSeriesScan p df).1).2 =
      datetimeCols (timeSeriesScan p df).1 ∧
    (∀ c ∈ df, c.data.isTemporal = true →
      getCol (timeSeriesScan p df).1 c.name = some c.data) := by
  by_cases h0 : datetimeCols df = []
  · rw [timeSeriesScan_eq p df hnd h0]
    dsimp only
    by_cases hflt : (categoryCols df).filter (convertsAt p df) = []
    · have hdf1 : df.map (fun c => if c.data.isText then convertCol p c else c) = df := by
        have h1 : df.map (fun c => if c.data.isText then convertCol p c else c) =
            df.map id := by
          apply List.map_congr_left
          intro c hc
          by_cases ht : c.data.isText = true
          · rcases c with ⟨nm, cd⟩
            cases cd with
            | text vals =>
              have hmm : nm ∈ categoryCols df := mem_categoryCols.mpr ⟨_, hc, rfl, ht⟩
              have hcf : convertsAt p df nm = false := by
                by_contra hcf
                have : nm ∈ (categoryCols df).filter (convertsAt p df) :=
                  List.mem_filter.mpr ⟨hmm, by simpa using hcf⟩
                rw [hflt] at this
                cases this
              have hget : getCol df nm = some (.text vals) :=
                getCol_mem_nodup hnd hc
              rw [convertsAt, hget] at hcf
              dsimp only at hcf
              rw [if_pos ht]
              simp only [convertCol]
              cases hcv : toDatetime p vals with
              | none => rfl
              | some ts => rw [hcv] at hcf; simp at hcf
            | numeric v => simp [ColData.isText] at ht
            | temporal v => simp [ColData.isText] at ht
            | boolean v => simp [ColData.isText] at ht
          · rw [if_neg ht]
            rfl
        rw [h1, List.map_id]
      rw [hdf1, timeSeriesScan_eq p df hnd h0]
      dsimp only
      exact ⟨hdf1, by rw [hflt, h0], by
        intro c hc ht
        have : c.name ∈ datetimeCols df := mem_datetimeCols.mpr ⟨c, hc, rfl, ht⟩
        rw [h0] at this
        cases this⟩
    · obtain ⟨n, hn⟩ := List.exists_mem_of_ne_nil _ hflt
      have hnc := List.mem_of_mem_filter hn
      have hcv := List.of_mem_filter hn
      obtain ⟨c, hc, rfl, ht⟩ := mem_categoryCols.mp hnc
      rcases c with ⟨nm, cd⟩
      cases cd with
      | text vals =>
        have hget : getCol df nm = some (.text vals) := getCol_mem_nodup hnd hc
        rw [convertsAt, hget] at hcv
        dsimp only at hcv
        cases hts : toDatetime p vals with
        | none => rw [hts] at hcv; simp at hcv
        | some ts =>
          have hmem1 : (⟨nm, .temporal ts⟩ : Column) ∈
              df.map (fun c => if c.data.isText then convertCol p c else c) := by
            have := List.mem_map_of_mem
              (fun c => if c.data.isText then convertCol p c else c) hc
            simpa [convertCol, hts, ColData.isText] using this
          have hne : datetimeCols
              (df.map (fun c => if c.data.isText then convertCol p c else c)) ≠ [] := by
            intro he
            have : nm ∈ datetimeCols
                (df.map (fun c => if c.data.isText then convertCol p c else c)) :=
              mem_datetimeCols.mpr ⟨_, hmem1, rfl, rfl⟩
            rw [he] at this
            cases this
          rw [timeSeriesScan, if_neg (by simp [List.isEmpty_iff, hne])]
          refine ⟨rfl, rfl, ?_⟩
          intro c' hc' ht'
          have : c'.name ∈ datetimeCols df := mem_datetimeCols.mpr ⟨c', hc', rfl, ht'⟩
          rw [h0] at this
          cases this
      | numeric v => simp [ColData.isText] at ht
      | temporal v => simp [ColData.isText] at ht
      | boolean v => simp [ColData.isText] at ht
  · have hs : timeSeriesScan p df = (df, datetimeCols df) := by
      rw [timeSeriesScan, if_neg (by simp [List.isEmpty_iff, h0])]
    rw [hs]
    dsimp only
    rw [hs]
    exact ⟨rfl, rfl, fun c hc _ => getCol_mem_nodup hnd hc⟩

theorem claim_C9_amended_witness :
    (timeSeriesScan isoParse
        (timeSeriesScan isoParse [⟨"d", .text [some "2024-01-01"]⟩]).1).1 =
      (timeSeriesScan isoParse [⟨"d", .text [some "2024-01-01"]⟩]).1 :=
  (claim_C9_amended isoParse [⟨"d", .text [some "2024-01-01"]⟩] (by decide)).1

/-! ## Claim C8: the column classification -/

/-- **C8 counterexample.** A `bool`-dtype column (which `pd.read_csv` can
produce) belongs to none of the three sets: `select_dtypes` with
`['float64','int64']`, `['datetime64']` and `['object']` all exclude it.
The classification is therefore not a partition of the columns — the
claim's "boolean still falls in categorical/other" does not hold of the
code. -/
theorem claim_C8_counter :
    ([⟨"b", .boolean [some true]⟩] : Dataset).map Column.name = ["b"] ∧
    "b" ∉ numericCols [⟨"b", .boolean [some true]⟩] ∧
    "b" ∉ datetimeCols [⟨"b", .boolean [some true]⟩] ∧
    "b" ∉ categoryCols [⟨"b", .boolean [some true]⟩] := by
  refine ⟨rfl, ?_, ?_, ?_⟩ <;> decide

/-- **C8 (amended).** Classification by stored dtype assigns each numeric
column to the numeric set, each datetime column to the temporal set, each
text column to the categorical set; under distinct column names the three
sets are pairwise disjoint and cover exactly the columns of those three
dtypes — but a column of any other stored representation (e.g. boolean)
is omitted from all three sets, so the classification is not a partition
of the whole Dataset. -/
theorem claim_C8_amended (df : Dataset) (hnd : (df.map Column.name).Nodup) :
    ∀ c ∈ df,
      (c.name ∈ numericCols df ↔ c.data.isNumeric = true) ∧
      (c.name ∈ datetimeCols df ↔ c.data.isTemporal = true) ∧
      (c.name ∈ categoryCols df ↔ c.data.isText = true) ∧
      (c.data.isBoolean = true →
        c.name ∉ numericCols df ∧ c.name ∉ datetimeCols df ∧
          c.name ∉ categoryCols df) := by
  intro c hc
  have hnum : c.name ∈ numericCols df ↔ c.data.isNumeric = true := by
    rw [mem_numericCols]
    constructor
    · rintro ⟨c', hc', hname, ht⟩
      rw [name_inj_of_nodup hnd hc hc' hname.symm]
      exact ht
    · intro ht
      exact ⟨c, hc, rfl, ht⟩
  have htemp : c.name ∈ datetimeCols df ↔ c.data.isTemporal = true := by
    rw [mem_datetimeCols]
    constructor
    · rintro ⟨c', hc', hname, ht⟩
      rw [name_inj_of_nodup hnd hc hc' hname.symm]
      exact ht
    · intro ht
      exact ⟨c, hc, rfl, ht⟩
  have hcat := mem_categoryCols_iff_isText hnd hc
  refine ⟨hnum, htemp, hcat, fun hb => ?_⟩
  have hcases : c.data.isNumeric = false ∧ c.data.isTemporal = false ∧
      c.data.isText = false := by
    rcases hd : c.data with v|v|v|v <;> rw [hd] at hb <;>
      simp_all [ColData.isBoolean, ColData.isNumeric, ColData.isTemporal,
        ColData.isText]
  refine ⟨fun hm => ?_, fun hm => ?_, fun hm => ?_⟩
  · rw [hnum, hcases.1] at hm
    cases hm
  · rw [htemp, hcases.2.1] at hm
    cases hm
  · rw [hcat, hcases.2.2] at hm
    cases hm

theorem claim_C8_amended_witness :
    "n" ∈ numericCols [⟨"n", .numeric [some 1]⟩, ⟨"t", .text [some "a"]⟩] :=
  ((claim_C8_amended [⟨"n", .numeric [some 1]⟩, ⟨"t", .text [some "a"]⟩]
    (by decide)) ⟨"n", .numeric [some 1]⟩ (by decide)).1.mpr rfl

/-! ## Claim C4: the under-populated correlation view -/

/-- **C4 counterexample.** With a single numeric column the Correlation
Analysis branch renders nothing at all: the `if len(numeric_cols) > 1`
guard (line 78) has no `else`, so no advisory is shown — contradicting
the claim that the caller renders a "not enough numeric columns"
advisory. -/
theorem claim_C4_counter :
    correlationBranch
        [⟨"x", .numeric [some 1, some 2]⟩, ⟨"t", .text [some "u", some "v"]⟩]
      = [] ∧
    RenderItem.warning "not enough numeric columns" ∉
      correlationBranch
        [⟨"x", .numeric [some 1, some 2]⟩, ⟨"t", .text [some "u", some "v"]⟩] := by
  have h : correlationBranch
      [⟨"x", .numeric [some 1, some 2]⟩, ⟨"t", .text [some "u", some "v"]⟩]
      = [] := rfl
  exact ⟨h, fun hs => by rw [h] at hs; cases hs⟩

/-- **C4 (amended).** For every Dataset with fewer than 2 numeric columns
the Correlation Analysis branch produces no matrix and no top-pairs table
and raises no exception — but it renders nothing else either: there is no
user-facing advisory, because the guard has no `else` branch. -/
theorem claim_C4_amended (df : Dataset) (h : (numericCols df).length < 2) :
    correlationBranch df = [] := by
  rw [correlationBranch, if_neg (by omega)]

theorem claim_C4_amended_witness :
    correlationBranch [⟨"x", .numeric [some 1]⟩] = [] :=
  claim_C4_amended [⟨"x", .numeric [some 1]⟩] (by decide)

/-! ## Claim C2: resampling semantics -/

theorem resample_eq (f : Freq) (rows : List (Int × Option ℚ)) (h : rows ≠ []) :
    resample f rows =
      (bucketRange f (tsMin rows) (tsMax rows)).map
        (fun b => (b, meanOpt (bucketVals f rows b))) := by
  cases rows with
  | nil => exact absurd rfl h
  | cons r rs => simp [resample, tsMin, tsMax]

theorem mem_bucketRange {f : Freq} {lo hi b : Int} :
    b ∈ bucketRange f lo hi ↔
      f.label b = b ∧ f.label lo ≤ b ∧ b ≤ f.label hi := by
  rw [bucketRange, List.mem_filter, List.mem_map]
  constructor
  · rintro ⟨⟨k, hk, rfl⟩, hfix⟩
    rw [List.mem_range] at hk
    refine ⟨by simpa using hfix, by simp only [Int.ofNat_eq_coe]; omega,
      by simp only [Int.ofNat_eq_coe]; omega⟩
  · rintro ⟨hfix, h1, h2⟩
    refine ⟨⟨(b - f.label lo).toNat, ?_, by simp only [Int.ofNat_eq_coe]; omega⟩,
      by simpa using hfix⟩
    rw [List.mem_range]
    omega

theorem bucketRange_fn_inj (f : Freq) (lo : Int) :
    Function.Injective (fun k : Nat => f.label lo + Int.ofNat k) := by
  intro a b hab
  simp only [Int.ofNat_eq_coe] at hab
  omega

theorem bucketRange_nodup (f : Freq) (lo hi : Int) :
    (bucketRange f lo hi).Nodup := by
  apply List.Nodup.filter
  exact (List.nodup_range _).map (bucketRange_fn_inj f lo)

theorem meanOpt_eq_none {l : List ℚ} : meanOpt l = none ↔ l = [] := by
  cases l <;> simp [meanOpt]

/-- **C2 counterexample.** Daily data for Jan 1 and Jan 5 resampled to
`Day` yields five entries, not two: pandas `resample` produces the full
regular index between the first and last timestamp and fills empty
buckets with `NaN` — empty buckets are not omitted from the output
sequence. -/
theorem claim_C2_counter :
    (resample Freq.day [((19723 : Int), some (10 : ℚ)), (19727, some 20)]).length
      = 5 ∧
    (resample Freq.day [((19723 : Int), some (10 : ℚ)), (19727, some 20)]).length
      ≠ 2 ∧
    ((19724 : Int), (none : Option ℚ)) ∈
      resample Freq.day [((19723 : Int), some (10 : ℚ)), (19727, some 20)] := by
  refine ⟨by decide, by decide, by decide⟩

/-- **C2 (amended).** `resample` groups rows by the bucket label of the
temporal value and returns the mean of each bucket's non-missing values —
but empty buckets are not omitted: the output has exactly one entry for
every bucket label (fixed point of the labelling function) from the label
of the earliest timestamp to the label of the latest, and an entry's
value is missing exactly when its bucket holds no non-missing value.
Daily data for Jan 1 and Jan 5 resampled to `Day` therefore yields five
entries, three of them missing. -/
theorem claim_C2_amended (f : Freq) (rows : List (Int × Option ℚ))
    (h : rows ≠ []) :
    (∀ b : Int, b ∈ (resample f rows).map Prod.fst ↔
      (f.label b = b ∧ f.label (tsMin rows) ≤ b ∧ b ≤ f.label (tsMax rows))) ∧
    ((resample f rows).map Prod.fst).Nodup ∧
    (∀ b v, (b, v) ∈ resample f rows →
      ((v = none ↔ bucketVals f rows b = []) ∧
       (bucketVals f rows b ≠ [] → v = some (listMean (bucketVals f rows b))))) := by
  rw [resample_eq f rows h]
  have hfst : ((bucketRange f (tsMin rows) (tsMax rows)).map
      (fun b => (b, meanOpt (bucketVals f rows b)))).map Prod.fst =
      bucketRange f (tsMin rows) (tsMax rows) := by
    rw [List.map_map,
      show (Prod.fst ∘ fun b =>
        ((b, meanOpt (bucketVals f rows b)) : Int × Option ℚ)) = id from rfl,
      List.map_id]
  refine ⟨?_, ?_, ?_⟩
  · intro b
    rw [hfst]
    exact mem_bucketRange
  · rw [hfst]
    exact bucketRange_nodup f _ _
  · intro b v hbv
    obtain ⟨b', _, heq⟩ := List.mem_map.mp hbv
    obtain ⟨rfl, rfl⟩ := Prod.mk.injEq .. ▸ heq
    constructor
    · rw [meanOpt_eq_none]
    · intro hne
      simp [meanOpt, List.isEmpty_iff, hne]

theorem claim_C2_amended_witness :
    (19724 : Int) ∈
      (resample Freq.day [((19723 : Int), some (10 : ℚ)), (19727, some 20)]).map
        Prod.fst :=
  ((claim_C2_amended Freq.day [(19723, some 10), (19727, some 20)]
    (by decide)).1 19724).mpr (by decide)

/-! ## Claim C5: the correlation matrix -/

theorem pairRows_swap (xs ys : List (Option ℚ)) :
    pairRows ys xs = (pairRows xs ys).map Prod.swap := by
  induction xs generalizing ys with
  | nil =>
    cases ys with
    | nil => rfl
    | cons y ys => cases y <;> rfl
  | cons x xs ih =>
    cases ys with
    | nil => cases x <;> rfl
    | cons y ys => cases x <;> cases y <;> simp [pairRows, ih]

theorem pairRows_self (xs : List (Option ℚ)) :
    pairRows xs xs = (xs.filterMap id).map (fun a => (a, a)) := by
  induction xs with
  | nil => rfl
  | cons x xs ih => cases x <;> simp [pairRows, ih]

theorem sum_pos_of_mem_pos {l : List ℚ} (h0 : ∀ x ∈ l, 0 ≤ x)
    (h1 : ∃ x ∈ l, 0 < x) : 0 < l.sum := by
  induction l with
  | nil =>
    rcases h1 with ⟨x, hx, _⟩
    cases hx
  | cons y ys ih =>
    rcases h1 with ⟨x, hx, hpos⟩
    rcases List.mem_cons.mp hx with rfl | hmem
    · have hys : 0 ≤ ys.sum :=
        List.sum_nonneg (fun z hz => h0 z (List.mem_cons_of_mem _ hz))
      rw [List.sum_cons]
      linarith
    · have h2 := ih (fun z hz => h0 z (List.mem_cons_of_mem _ hz)) ⟨x, hmem, hpos⟩
      have hy : 0 ≤ y := h0 y (List.mem_cons_self _ _)
      rw [List.sum_cons]
      linarith

theorem sum_sq_dev_pos {l : List ℚ} {a b : ℚ} (ha : a ∈ l) (hb : b ∈ l)
    (hab : a ≠ b) :
    0 < (l.map (fun t => (t - listMean l) * (t - listMean l))).sum := by
  apply sum_pos_of_mem_pos
  · intro x hx
    obtain ⟨t, _, rfl⟩ := List.mem_map.mp hx
    exact mul_self_nonneg _
  · rcases eq_or_ne a (listMean l) with he | hne
    · refine ⟨(b - listMean l) * (b - listMean l), List.mem_map_of_mem _ hb, ?_⟩
      have hbm : b ≠ listMean l := fun hb2 => hab (he.trans hb2.symm)
      exact mul_self_pos.mpr (sub_ne_zero.mpr hbm)
    · exact ⟨(a - listMean l) * (a - listMean l), List.mem_map_of_mem _ ha,
        mul_self_pos.mpr (sub_ne_zero.mpr hne)⟩

theorem pearson_comm (xs ys : List (Option ℚ)) :
    pearson ys xs = pearson xs ys := by
  simp only [pearson, pairRows_swap xs ys]
  set rows := pairRows xs ys with hrows
  by_cases hr : rows = []
  · simp [hr]
  · have hfst : (rows.map Prod.swap).map Prod.fst = rows.map Prod.snd := by
      rw [List.map_map]
      rfl
    have hsnd : (rows.map Prod.swap).map Prod.snd = rows.map Prod.fst := by
      rw [List.map_map]
      rfl
    rw [if_neg (show ¬((rows.map Prod.swap).isEmpty = true) by
        simp [List.isEmpty_iff, hr]),
      if_neg (show ¬(rows.isEmpty = true) by simp [List.isEmpty_iff, hr]),
      hfst, hsnd]
    set mX := listMean (rows.map Prod.fst) with hmX
    set mY := listMean (rows.map Prod.snd) with hmY
    have hssx : ((rows.map Prod.swap).map (fun r => (r.1 - mY) * (r.1 - mY))).sum
        = (rows.map (fun r => (r.2 - mY) * (r.2 - mY))).sum := by
      rw [List.map_map]
      rfl
    have hssy : ((rows.map Prod.swap).map (fun r => (r.2 - mX) * (r.2 - mX))).sum
        = (rows.map (fun r => (r.1 - mX) * (r.1 - mX))).sum := by
      rw [List.map_map]
      rfl
    have hcov : ((rows.map Prod.swap).map (fun r => (r.1 - mY) * (r.2 - mX))).sum
        = (rows.map (fun r => (r.1 - mX) * (r.2 - mY))).sum := by
      rw [List.map_map]
      exact congrArg List.sum (List.map_congr_left fun r _ => mul_comm _ _)
    rw [hssx, hssy, hcov,
      mul_comm ((rows.map (fun r => (r.2 - mY) * (r.2 - mY))).sum)
        ((rows.map (fun r => (r.1 - mX) * (r.1 - mX))).sum)]

theorem pearson_self (xs : List (Option ℚ))
    (h : ∃ a b : ℚ, some a ∈ xs ∧ some b ∈ xs ∧ a ≠ b) :
    pearson xs xs = some 1 := by
  obtain ⟨a, b, ha, hb, hab⟩ := h
  have hal : a ∈ xs.filterMap id := List.mem_filterMap.mpr ⟨some a, ha, rfl⟩
  have hbl : b ∈ xs.filterMap id := List.mem_filterMap.mpr ⟨some b, hb, rfl⟩
  simp only [pearson, pairRows_self]
  set l := xs.filterMap id with hldef
  have hlne : l ≠ [] := List.ne_nil_of_mem hal
  rw [if_neg (show ¬((l.map (fun a => (a, a))).isEmpty = true) by
    simp [List.isEmpty_iff, hlne])]
  have hfst : (l.map (fun a => (a, a))).map Prod.fst = l := by
    rw [List.map_map, show (Prod.fst ∘ fun a : ℚ => (a, a)) = id from rfl,
      List.map_id]
  have hsnd : (l.map (fun a => (a, a))).map Prod.snd = l := by
    rw [List.map_map, show (Prod.snd ∘ fun a : ℚ => (a, a)) = id from rfl,
      List.map_id]
  rw [hfst, hsnd]
  set m := listMean l with hm
  have h1 : ((l.map (fun a => (a, a))).map (fun r => (r.1 - m) * (r.1 - m))).sum
      = (l.map (fun t => (t - m) * (t - m))).sum := by
    rw [List.map_map]
    rfl
  have h2 : ((l.map (fun a => (a, a))).map (fun r => (r.2 - m) * (r.2 - m))).sum
      = (l.map (fun t => (t - m) * (t - m))).sum := by
    rw [List.map_map]
    rfl
  have h3 : ((l.map (fun a => (a, a))).map (fun r => (r.1 - m) * (r.2 - m))).sum
      = (l.map (fun t => (t - m) * (t - m))).sum := by
    rw [List.map_map]
    rfl
  rw [h1, h2, h3]
  have hS : 0 < (l.map (fun t => (t - m) * (t - m))).sum := sum_sq_dev_pos hal hbl hab
  rw [if_neg (mul_pos hS hS).ne', abs_of_pos hS,
    div_self (mul_pos hS hS).ne']

theorem corrMatrix_entry (df : Dataset) (i j : Nat) :
    ((corrMatrix df).getD i []).getD j none =
      match (numColVals df)[i]?, (numColVals df)[j]? with
      | some xs, some ys => pearson xs ys
      | _, _ => none := by
  unfold corrMatrix
  rw [List.getD_eq_getElem?_getD, List.getD_eq_getElem?_getD,
    List.getElem?_map]
  cases hii : (numColVals df)[i]? with
  | none => simp
  | some xs =>
    simp only [Option.map_some', Option.getD_some]
    rw [List.getElem?_map]
    cases hjj : (numColVals df)[j]? with
    | none => simp
    | some ys => simp

theorem corrMatrix_symm_entry (df : Dataset) (i j : Nat) :
    ((corrMatrix df).getD i []).getD j none =
      ((corrMatrix df).getD j []).getD i none := by
  rw [corrMatrix_entry, corrMatrix_entry]
  cases (numColVals df)[i]? <;> cases (numColVals df)[j]? <;>
    simp [pearson_comm]

/-- **C5 counterexample.** With two numeric columns of which `x` is
constant, the diagonal entry for `x` is `NaN` (encoded `none`), not `1`:
pandas `nancorr` computes the diagonal with the same
`covxy / sqrt(ssqdmx * ssqdmy)` formula and a constant column has a zero
divisor. The claim's "every diagonal entry equals exactly 1" fails. -/
theorem claim_C5_counter :
    1 < (numericCols [⟨"x", .numeric [some 1, some 1]⟩,
      ⟨"y", .numeric [some 1, some 2]⟩]).length ∧
    ((corrMatrix [⟨"x", .numeric [some 1, some 1]⟩,
      ⟨"y", .numeric [some 1, some 2]⟩]).getD 0 []).getD 0 none = none ∧
    ((corrMatrix [⟨"x", .numeric [some 1, some 1]⟩,
      ⟨"y", .numeric [some 1, some 2]⟩]).getD 0 []).getD 0 none ≠ some 1 := by
  have h : ((corrMatrix [⟨"x", .numeric [some 1, some 1]⟩,
      ⟨"y", .numeric [some 1, some 2]⟩]).getD 0 []).getD 0 none = none := by
    simp only [corrMatrix, numColVals, List.filterMap_cons, List.map_cons,
      List.map_nil, List.getD_cons_zero]
    norm_num [pearson, pairRows, listMean]
  refine ⟨by decide, h, by rw [h]; simp⟩

/-- **C5 (amended).** The correlation matrix is computed over the numeric
columns only, each entry by pairwise-deletion Pearson correlation
(`pearson` keeps exactly the rows where both columns are non-missing).
The matrix is symmetric — unconditionally — and a diagonal entry equals
exactly 1 for every numeric column whose non-missing values contain two
distinct elements; for a constant or effectively-empty column the
diagonal entry is `NaN`, not 1. -/
theorem claim_C5_amended (df : Dataset) :
    (∀ i j : Nat, ((corrMatrix df).getD i []).getD j none =
      ((corrMatrix df).getD j []).getD i none) ∧
    (∀ (i : Nat) (xs : List (Option ℚ)), (numColVals df)[i]? = some xs →
      (∃ a b : ℚ, some a ∈ xs ∧ some b ∈ xs ∧ a ≠ b) →
      ((corrMatrix df).getD i []).getD i none = some 1) := by
  refine ⟨corrMatrix_symm_entry df, ?_⟩
  intro i xs hxs hex
  rw [corrMatrix_entry, hxs]
  exact pearson_self xs hex

theorem claim_C5_amended_witness :
    ((corrMatrix [⟨"y", .numeric [some 1, some 2]⟩]).getD 0 []).getD 0 none
      = some 1 :=
  (claim_C5_amended [⟨"y", .numeric [some 1, some 2]⟩]).2 0 [some 1, some 2]
    (by decide) ⟨1, 2, by decide, by decide, by decide⟩

/-! ## Claim C3: the Top-5 correlation table -/

theorem mem_corrPairs {names : List String} {m : List (List (Option ℚ))}
    {r : CorrRecord} :
    r ∈ corrPairs names m ↔ ∃ i j : Nat, i < j ∧ j < names.length ∧
      r = ⟨names.getD i "", names.getD j "", (m.getD i []).getD j none⟩ := by
  simp only [corrPairs, List.mem_flatMap, List.mem_map, List.mem_range,
    List.mem_range']
  constructor
  · rintro ⟨i, hi, j, ⟨k, hk, rfl⟩, rfl⟩
    exact ⟨i, i + 1 + 1 * k, by omega, by omega, rfl⟩
  · rintro ⟨i, j, hij, hjlen, rfl⟩
    exact ⟨i, by omega, j, ⟨j - (i + 1), by omega, by omega⟩, rfl⟩

theorem getD_str {l : List String} {k : Nat} (h : k < l.length) :
    l.getD k "" = l[k] := by
  rw [List.getD_eq_getElem?_getD, List.getElem?_eq_getElem h, Option.getD_some]

theorem corrPairs_nodup {names : List String} {m : List (List (Option ℚ))}
    (hnd : names.Nodup) : (corrPairs names m).Nodup := by
  rw [corrPairs, List.nodup_flatMap]
  constructor
  · intro i hi
    rw [List.mem_range] at hi
    apply List.Nodup.map_on
    · intro x hx y hy hxy
      rw [List.mem_range'] at hx hy
      obtain ⟨kx, hkx, rfl⟩ := hx
      obtain ⟨ky, hky, rfl⟩ := hy
      have h2 : names.getD (i + 1 + 1 * kx) "" = names.getD (i + 1 + 1 * ky) "" :=
        congrArg CorrRecord.var2 hxy
      rw [getD_str (by omega), getD_str (by omega)] at h2
      have := hnd.getElem_inj_iff.mp h2
      omega
    · exact List.nodup_range' _ _
  · apply (List.pairwise_lt_range _).imp
    intro i1 i2 hlt r hr1 hr2
    rw [List.mem_map] at hr1 hr2
    obtain ⟨j1, hj1, rfl⟩ := hr1
    obtain ⟨j2, hj2, heq⟩ := hr2
    rw [List.mem_range'] at hj1 hj2
    obtain ⟨k1, hk1, rfl⟩ := hj1
    obtain ⟨k2, hk2, rfl⟩ := hj2
    have h1 : names.getD i2 "" = names.getD i1 "" :=
      congrArg CorrRecord.var1 heq
    rw [getD_str (by omega), getD_str (by omega)] at h1
    have := hnd.getElem_inj_iff.mp h1
    omega

theorem corrLe_trans : ∀ a b c : CorrRecord,
    decide (b.corr.getD 0 ≤ a.corr.getD 0) = true →
    decide (c.corr.getD 0 ≤ b.corr.getD 0) = true →
    decide (c.corr.getD 0 ≤ a.corr.getD 0) = true := by
  intro a b c h1 h2
  simp only [decide_eq_true_eq] at *
  exact le_trans h2 h1

theorem corrLe_total : ∀ a b : CorrRecord,
    (decide (b.corr.getD 0 ≤ a.corr.getD 0) ||
      decide (a.corr.getD 0 ≤ b.corr.getD 0)) = true := by
  intro a b
  simpa using le_total _ _

theorem nlargest_length (n : Nat) (l : List CorrRecord) :
    (nlargest n l).length =
      min n (l.filter (fun r => r.corr.isSome)).length := by
  rw [nlargest, List.length_take, List.length_mergeSort]

theorem mem_nlargest {n : Nat} {l : List CorrRecord} {r : CorrRecord}
    (h : r ∈ nlargest n l) : r ∈ l ∧ r.corr.isSome = true := by
  have h2 : r ∈ (l.filter (fun r => r.corr.isSome)).mergeSort
      (fun a b => decide (b.corr.getD 0 ≤ a.corr.getD 0)) :=
    (List.take_sublist _ _).subset h
  rw [List.mem_mergeSort, List.mem_filter] at h2
  exact h2

theorem nlargest_sorted (n : Nat) (l : List CorrRecord) :
    (nlargest n l).Pairwise (fun a b => b.corr.getD 0 ≤ a.corr.getD 0) := by
  have hs := List.sorted_mergeSort corrLe_trans corrLe_total
    (l.filter (fun r => r.corr.isSome))
  exact ((hs.sublist (List.take_sublist n _)).imp (fun h => of_decide_eq_true h))

theorem no_both_orders {α : Type} {a b : α} :
    ∀ {l : List α}, l.Nodup → List.Sublist [a, b] l → List.Sublist [b, a] l → a = b := by
  intro l
  induction l with
  | nil =>
    intro _ h
    exact absurd h (by simp)
  | cons x t ih =>
    intro hnd h1 h2
    rcases List.nodup_cons.mp hnd with ⟨hx, hnt⟩
    cases h1 with
    | cons _ h1t =>
      cases h2 with
      | cons _ h2t => exact ih hnt h1t h2t
      | cons₂ _ h2t =>
        exact absurd (h1t.subset (show b ∈ [a, b] by simp)) hx
    | cons₂ _ h1t =>
      cases h2 with
      | cons _ h2t =>
        exact absurd (h2t.subset (show a ∈ [b, a] by simp)) hx
      | cons₂ _ h2t => rfl

/-- **C3.** `topCorrelations` enumerates exactly the unordered pairs
`(i, j)` with `i < j` in column order — each unordered pair once and never
a column with itself — ranks them by `nlargest` (descending by the
correlation value, equal values kept in order of first appearance), and
truncates to at most 5 entries; a matrix with fewer than 2 columns yields
the empty sequence rather than an error. Correlation values are in the
signed-square encoding, which preserves their relative order. -/
theorem claim_C3 (names : List String) (m : List (List (Option ℚ)))
    (hnd : names.Nodup) :
    (∀ r ∈ corrPairs names m, ∃ i j : Nat, i < j ∧ j < names.length ∧
      r = ⟨names.getD i "", names.getD j "", (m.getD i []).getD j none⟩ ∧
      r.var1 ≠ r.var2) ∧
    (∀ i j : Nat, i < j → j < names.length →
      (⟨names.getD i "", names.getD j "",
        (m.getD i []).getD j none⟩ : CorrRecord) ∈ corrPairs names m) ∧
    (∀ r r' : CorrRecord, r ∈ corrPairs names m → r' ∈ corrPairs names m →
      ((r.var1 = r'.var1 ∧ r.var2 = r'.var2) ∨
        (r.var1 = r'.var2 ∧ r.var2 = r'.var1)) → r = r') ∧
    (topCorrelations names m).length ≤ 5 ∧
    (∀ r ∈ topCorrelations names m, r ∈ corrPairs names m) ∧
    (topCorrelations names m).Pairwise
      (fun a b => b.corr.getD 0 ≤ a.corr.getD 0) ∧
    (∀ a b : CorrRecord, List.Sublist [a, b] (corrPairs names m) →
      a.corr.isSome = true → b.corr.isSome = true →
      a.corr.getD 0 = b.corr.getD 0 →
      ¬ List.Sublist [b, a] (topCorrelations names m)) ∧
    (names.length < 2 → topCorrelations names m = []) := by
  refine ⟨?_, ?_, ?_, ?_, ?_, nlargest_sorted 5 _, ?_, ?_⟩
  · intro r hr
    obtain ⟨i, j, hij, hj, rfl⟩ := mem_corrPairs.mp hr
    refine ⟨i, j, hij, hj, rfl, ?_⟩
    dsimp only
    rw [getD_str (show i < names.length by omega), getD_str hj]
    intro he
    have := hnd.getElem_inj_iff.mp he
    omega
  · intro i j h1 h2
    exact mem_corrPairs.mpr ⟨i, j, h1, h2, rfl⟩
  · intro r r' hr hr'
    obtain ⟨i, j, hij, hj, rfl⟩ := mem_corrPairs.mp hr
    obtain ⟨k, l, hkl, hl, rfl⟩ := mem_corrPairs.mp hr'
    dsimp only
    rw [getD_str (show i < names.length by omega), getD_str hj,
      getD_str (show k < names.length by omega), getD_str hl]
    rintro (⟨h1, h2⟩ | ⟨h1, h2⟩)
    · have e1 : i = k := hnd.getElem_inj_iff.mp h1
      have e2 : j = l := hnd.getElem_inj_iff.mp h2
      subst e1
      subst e2
      rfl
    · have e1 : i = l := hnd.getElem_inj_iff.mp h1
      have e2 : j = k := hnd.getElem_inj_iff.mp h2
      omega
  · rw [topCorrelations, nlargest_length]
    omega
  · intro r hr
    exact (mem_nlargest hr).1
  · intro a b hab ha hb heq hcon
    have hfsub : List.Sublist [a, b] ((corrPairs names m).filter (fun r => r.corr.isSome)) := by
      have h2 := hab.filter (fun r => r.corr.isSome)
      rwa [show [a, b].filter (fun r => r.corr.isSome) = [a, b] by
        simp [List.filter_cons, ha, hb]] at h2
    have hms : List.Sublist [a, b] (((corrPairs names m).filter
        (fun r => r.corr.isSome)).mergeSort
        (fun a b => decide (b.corr.getD 0 ≤ a.corr.getD 0))) :=
      List.sublist_mergeSort corrLe_trans corrLe_total
        (List.pairwise_pair.mpr (by
          simp only [decide_eq_true_eq]
          exact le_of_eq heq.symm)) hfsub
    have hcon2 : List.Sublist [b, a] (((corrPairs names m).filter
        (fun r => r.corr.isSome)).mergeSort
        (fun a b => decide (b.corr.getD 0 ≤ a.corr.getD 0))) :=
      hcon.trans (List.take_sublist 5 _)
    have hmsnodup : (((corrPairs names m).filter
        (fun r => r.corr.isSome)).mergeSort
        (fun a b => decide (b.corr.getD 0 ≤ a.corr.getD 0))).Nodup :=
      (List.mergeSort_perm _ _).nodup_iff.mpr ((corrPairs_nodup hnd).filter _)
    have hab2 : a = b := no_both_orders hmsnodup hms hcon2
    subst hab2
    have : ([a, a] : List CorrRecord).Nodup := hms.nodup hmsnodup
    simp at this
  · intro h
    have hpe : corrPairs names m = [] := by
      cases names with
      | nil => rfl
      | cons a t =>
        cases t with
        | nil => rfl
        | cons b t2 => simp at h; omega
    simp [topCorrelations, nlargest, hpe]

theorem claim_C3_witness :
    topCorrelations ["a"] [[some 1]] = [] :=
  (claim_C3 ["a"] [[some 1]] (by decide)).2.2.2.2.2.2.2 (by decide)

/-! ## Claim C10: NaN pairs are dropped from the Top-5 table -/

/-- **C10.** Pairs whose correlation value is not a number (e.g. any pair
involving a constant numeric column, whose Pearson correlation is
undefined) are silently dropped by `nlargest`: every returned record
carries a defined value, and the output length is
`min 5 (number of defined pairs)` — so the table can hold fewer than 5
entries even when 5 or more distinct unordered pairs exist. Concretely,
with four columns of which one is constant, 6 pairs exist but only 3 are
returned. -/
theorem claim_C10 (names : List String) (m : List (List (Option ℚ))) :
    (∀ r ∈ topCorrelations names m, r.corr.isSome = true) ∧
    (topCorrelations names m).length =
      min 5 ((corrPairs names m).filter (fun r => r.corr.isSome)).length ∧
    (corrPairs ["a", "b", "c", "d"]
        [[none, none, none, none],
         [none, some 1, some 1, some (-1)],
         [none, some 1, some 1, some 1],
         [none, some (-1), some 1, some 1]]).length = 6 ∧
    (topCorrelations ["a", "b", "c", "d"]
        [[none, none, none, none],
         [none, some 1, some 1, some (-1)],
         [none, some 1, some 1, some 1],
         [none, some (-1), some 1, some 1]]).length = 3 := by
  refine ⟨fun r hr => (mem_nlargest hr).2, nlargest_length 5 _, by decide, ?_⟩
  rw [topCorrelations, nlargest_length]
  decide

/-! ## Claim C6: CSV load/export round-trip -/

end Dashboard
